import Mathlib

/-!
# Degenter indexer core — verification of the specification against the code

Shallow embedding of the core indexing pipeline of the Degenter DEX indexer:
the trade sink (`core/trades.js`), the block processor's scheduling skeleton
(`core/block-processor.js`), the pool registry upsert (`core/pools.js`), the
fast-track seed-pricing reactor (`jobs/fasttrack-listener.js`), and the live
WebSocket broadcaster (`api/ws.js`), against the relational schema.

Timestamps are modelled as milliseconds since the Unix epoch (natural
numbers); JavaScript numbers that only ever feed threshold comparisons are
modelled as exact rationals (the comparisons in question happen far below
2^53, where JS float arithmetic is exact); database tables are modelled as
lists of rows; SQL `ON CONFLICT` clauses become explicit row merges.
-/

namespace Degenter

/-! ## Trade rows and the trade sink (`core/trades.js`, schema `trades`)

A trade row carries the columns named in `INSERT_SQL`.  The batch queue's
flush runs one multi-row `INSERT … ON CONFLICT (created_at, tx_hash,
pool_id, msg_index) DO NOTHING`; the schema's unique index
`uq_trades_tx_pool_msg_time` is on the same four columns.  Amount columns
are `NUMERIC(78,0)`, nullable: modelled as `Option Nat`.  `class` is a
reserved-ish name; the field is spelled `cls`. -/

structure TradeRow where
  pool_id : Nat
  pair_contract : String
  action : String
  direction : String
  offer_asset_denom : Option String
  offer_amount_base : Option Nat
  ask_asset_denom : Option String
  ask_amount_base : Option Nat
  return_amount_base : Option Nat
  is_router : Bool
  reserve_asset1_denom : Option String
  reserve_asset1_amount_base : Option Nat
  reserve_asset2_denom : Option String
  reserve_asset2_amount_base : Option Nat
  height : Nat
  tx_hash : String
  signer : Option String
  msg_index : Nat
  created_at : Nat
  cls : Option String
  deriving Repr, DecidableEq

/-- The natural key used as the conflict target of the flush insert and by
the unique index `uq_trades_tx_pool_msg_time` (same four columns). -/
def tradeKey (t : TradeRow) : Nat × String × Nat × Nat :=
  (t.created_at, t.tx_hash, t.pool_id, t.msg_index)

/-- `true` iff the table already holds a row with the natural key of `t`. -/
def hasKey (tbl : List TradeRow) (t : TradeRow) : Bool :=
  tbl.any fun r => decide (tradeKey r = tradeKey t)

/-- Effect of one `VALUES` row under `ON CONFLICT … DO NOTHING`: appended
unless a row with the same natural key is already present. -/
def insertTradeRow (tbl : List TradeRow) (t : TradeRow) : List TradeRow :=
  if hasKey tbl t then tbl else tbl ++ [t]

/-- Effect of one multi-row flush insert: the `VALUES` rows are processed in
order, each under `DO NOTHING` (PostgreSQL also suppresses conflicts arising
between rows of the same statement). -/
def insertTrades (tbl : List TradeRow) (rows : List TradeRow) : List TradeRow :=
  rows.foldl insertTradeRow tbl

/-! ### Size-class derivation in `insertTrade`

`insertTrade` computes `zigAmount` before enqueueing:
`Number(t.offer_amount_base)/1e6` when the offer denom is `'uzig'`, else
`Number(t.return_amount_base)/1e6` when the ask denom is `'uzig'`, else `0`;
JavaScript's `Number(null)` is `0`, so a missing amount contributes `0`.
The class is assigned only when `zigAmount > 0`; otherwise `class = null`. -/

/-- The `zigAmount` computed by `insertTrade`. -/
def zigAmount (t : TradeRow) : ℚ :=
  if t.offer_asset_denom = some "uzig" then
    ((t.offer_amount_base.getD 0 : Nat) : ℚ) / 1000000
  else if t.ask_asset_denom = some "uzig" then
    ((t.return_amount_base.getD 0 : Nat) : ℚ) / 1000000
  else 0

/-- The class assignment of `insertTrade`: thresholds at 1000 and 10000,
guarded by `zigAmount > 0`. -/
def classOf (z : ℚ) : Option String :=
  if 0 < z then
    if z < 1000 then some "shrimp"
    else if z < 10000 then some "shark"
    else some "whale"
  else none

/-- `insertTrade t` derives `class` and enqueues the row; the row that
reaches the flush insert is `t` with `cls` overwritten. -/
def insertTrade (t : TradeRow) : TradeRow :=
  { t with cls := classOf (zigAmount t) }

/-! ### Idempotence of the flush insert (C1) -/

lemma hasKey_append_right (tbl l : List TradeRow) (t : TradeRow)
    (h : hasKey tbl t = true) : hasKey (tbl ++ l) t = true := by
  unfold hasKey at *
  rw [List.any_append, h, Bool.true_or]

lemma hasKey_insertTradeRow_mono (tbl : List TradeRow) (t u : TradeRow)
    (h : hasKey tbl t = true) : hasKey (insertTradeRow tbl u) t = true := by
  unfold insertTradeRow
  split
  · exact h
  · exact hasKey_append_right tbl [u] t h

lemma hasKey_insertTradeRow_self (tbl : List TradeRow) (t : TradeRow) :
    hasKey (insertTradeRow tbl t) t = true := by
  unfold insertTradeRow
  split
  · assumption
  · unfold hasKey
    rw [List.any_append]
    simp [List.any]

lemma insertTrades_hasKey_mono (rows : List TradeRow) (tbl : List TradeRow)
    (t : TradeRow) (h : hasKey tbl t = true) :
    hasKey (insertTrades tbl rows) t = true := by
  induction rows generalizing tbl with
  | nil => exact h
  | cons u rest ih =>
    exact ih (insertTradeRow tbl u) (hasKey_insertTradeRow_mono tbl t u h)

lemma insertTrades_hasKey_of_mem (rows : List TradeRow) (tbl : List TradeRow)
    (t : TradeRow) (h : t ∈ rows) :
    hasKey (insertTrades tbl rows) t = true := by
  induction rows generalizing tbl with
  | nil => cases h
  | cons u rest ih =>
    rcases List.mem_cons.mp h with rfl | hmem
    · exact insertTrades_hasKey_mono rest (insertTradeRow tbl t) t
        (hasKey_insertTradeRow_self tbl t)
    · exact ih (insertTradeRow tbl u) hmem

lemma insertTrades_of_all_hasKey (rows : List TradeRow) (tbl : List TradeRow)
    (h : ∀ t ∈ rows, hasKey tbl t = true) : insertTrades tbl rows = tbl := by
  induction rows generalizing tbl with
  | nil => rfl
  | cons u rest ih =>
    have hu : insertTradeRow tbl u = tbl := by
      unfold insertTradeRow
      rw [h u (List.mem_cons_self u rest)]
      simp
    show insertTrades (insertTradeRow tbl u) rest = tbl
    rw [hu]
    exact ih tbl (fun t ht => h t (List.mem_cons_of_mem u ht))

/-- C1: Trade insertion is idempotent: replaying `processHeight(h)`, and hence
re-enqueuing the same trade rows, leaves the trades table unchanged, because
every flush is a multi-row insert with conflict target
`(created_at, tx_hash, pool_id, msg_index) DO NOTHING` over the table's
unique natural key; inserting a list of trade rows twice yields the same
table state as inserting it once. -/
theorem insertTrades_idempotent (tbl : List TradeRow) (rows : List TradeRow) :
    insertTrades (insertTrades tbl rows) rows = insertTrades tbl rows :=
  insertTrades_of_all_hasKey rows (insertTrades tbl rows)
    (fun t ht => insertTrades_hasKey_of_mem rows tbl t ht)

/-! ### Size classification (C4)

The specification's rule reads: if either leg is the native quote, let
`z = (native leg amount) / 10^6`; then `z < 1000 → shrimp`, `< 10000 →
shark`, `≥ 10000 → whale`; else class is `null`.  The code additionally
requires `zigAmount > 0` before assigning any class, so a native-leg trade
with a zero (or absent) native amount gets `class = null` where the stated
rule yields `shrimp`. -/

/-- The size-class rule exactly as the claim states it for a native-leg
trade (thresholds only, no positivity guard); kept separate from the code's
`classOf` so the two can be compared. -/
def specSizeClass (z : ℚ) : String :=
  if z < 1000 then "shrimp" else if z < 10000 then "shark" else "whale"

/-- A swap offering 0 `uzig`: the native (offer) leg amount is present and
zero. -/
def c4row : TradeRow :=
  { pool_id := 7, pair_contract := "zig1pool", action := "swap",
    direction := "buy", offer_asset_denom := some "uzig",
    offer_amount_base := some 0, ask_asset_denom := some "factory/x",
    ask_amount_base := some 5, return_amount_base := some 5,
    is_router := false, reserve_asset1_denom := some "uzig",
    reserve_asset1_amount_base := some 1, reserve_asset2_denom := some "factory/x",
    reserve_asset2_amount_base := some 1, height := 100, tx_hash := "AA",
    signer := some "zig1s", msg_index := 0, created_at := 1700000000000,
    cls := none }

/-- C4 counterexample: a trade whose offer leg is `uzig` with amount 0 gets
`class = null` from the code, while the claim's thresholds
(`z = 0 < 1000`) demand `shrimp`. -/
theorem c4_zero_native_amount_not_shrimp :
    c4row.offer_asset_denom = some "uzig" ∧
    zigAmount c4row = 0 ∧
    specSizeClass (zigAmount c4row) = "shrimp" ∧
    (insertTrade c4row).cls = none ∧
    (insertTrade c4row).cls ≠ some (specSizeClass (zigAmount c4row)) := by
  refine ⟨rfl, ?_, ?_, ?_, ?_⟩ <;>
    simp [c4row, zigAmount, insertTrade, classOf, specSizeClass]

lemma classOf_div_million (a : Nat) :
    classOf ((a : ℚ) / 1000000) =
      if a = 0 then none
      else if a < 1000000000 then some "shrimp"
      else if a < 10000000000 then some "shark"
      else some "whale" := by
  unfold classOf
  rcases Nat.eq_zero_or_pos a with h | h
  · subst h; norm_num
  · have ha : (0 : ℚ) < (a : ℚ) := by exact_mod_cast h
    have h0 : (0 : ℚ) < (a : ℚ) / 1000000 := by positivity
    have h1 : ((a : ℚ) / 1000000 < 1000) ↔ ((a : Nat) < 1000000000) := by
      rw [div_lt_iff₀ (by norm_num : (0:ℚ) < 1000000)]
      norm_cast
    have h2 : ((a : ℚ) / 1000000 < 10000) ↔ ((a : Nat) < 10000000000) := by
      rw [div_lt_iff₀ (by norm_num : (0:ℚ) < 1000000)]
      norm_cast
    rw [if_pos h0, if_neg (Nat.pos_iff_ne_zero.mp h)]
    by_cases hc1 : a < 1000000000
    · rw [if_pos (h1.mpr hc1), if_pos hc1]
    · rw [if_neg (fun hq => hc1 (h1.mp hq)), if_neg hc1]
      by_cases hc2 : a < 10000000000
      · rw [if_pos (h2.mpr hc2), if_pos hc2]
      · rw [if_neg (fun hq => hc2 (h2.mp hq)), if_neg hc2]

/-- C4 amended: the class is derived from the code's `zigAmount`
(offer amount when the offer leg is `uzig`, otherwise the return amount when
the ask leg is `uzig`), with the stated thresholds applying only when that
amount is positive; a zero or absent native amount, like a trade with no
`uzig` leg, yields `class = null`.  Thresholds are phrased on the base
amount `a` (`z = a / 10^6`, so `z < 1000 ↔ a < 10^9`, `z < 10000 ↔ a <
10^10`). -/
theorem insertTrade_class_spec (t : TradeRow) (a : Nat) :
    (t.offer_asset_denom = some "uzig" → t.offer_amount_base = some a →
      (insertTrade t).cls =
        if a = 0 then none
        else if a < 1000000000 then some "shrimp"
        else if a < 10000000000 then some "shark"
        else some "whale") ∧
    (t.offer_asset_denom ≠ some "uzig" → t.ask_asset_denom = some "uzig" →
      t.return_amount_base = some a →
      (insertTrade t).cls =
        if a = 0 then none
        else if a < 1000000000 then some "shrimp"
        else if a < 10000000000 then some "shark"
        else some "whale") ∧
    (t.offer_asset_denom ≠ some "uzig" → t.ask_asset_denom ≠ some "uzig" →
      (insertTrade t).cls = none) ∧
    (t.offer_asset_denom = some "uzig" → t.offer_amount_base = none →
      (insertTrade t).cls = none) ∧
    (t.offer_asset_denom ≠ some "uzig" → t.ask_asset_denom = some "uzig" →
      t.return_amount_base = none →
      (insertTrade t).cls = none) := by
  refine ⟨?_, ?_, ?_, ?_, ?_⟩
  · intro hd ha
    unfold insertTrade zigAmount
    rw [if_pos hd, ha]
    simp only [Option.getD_some]
    rw [classOf_div_million]
  · intro hd hask ha
    unfold insertTrade zigAmount
    rw [if_neg hd, if_pos hask, ha]
    simp only [Option.getD_some]
    rw [classOf_div_million]
  · intro hd hask
    unfold insertTrade zigAmount
    rw [if_neg hd, if_neg hask]
    simp [classOf]
  · intro hd ha
    unfold insertTrade zigAmount
    rw [if_pos hd, ha]
    simp [classOf]
  · intro hd hask ha
    unfold insertTrade zigAmount
    rw [if_neg hd, if_pos hask, ha]
    simp [classOf]

/-- A swap offering 2×10⁹ `uzig` (z = 2000). -/
def c4sharkRow : TradeRow :=
  { c4row with offer_amount_base := some 2000000000, tx_hash := "BB" }

/-- Witness for the amended C4 theorem at a concrete shark-sized trade. -/
theorem insertTrade_class_spec_witness :
    c4sharkRow.offer_asset_denom = some "uzig" ∧
    c4sharkRow.offer_amount_base = some 2000000000 ∧
    (insertTrade c4sharkRow).cls = some "shark" := by
  refine ⟨rfl, rfl, ?_⟩
  have h := (insertTrade_class_spec c4sharkRow 2000000000).1 rfl rfl
  simpa using h

/-! ## Pool registry (`core/pools.js`, schema `pools`)

`upsertPool` inserts a full row and, on `pair_contract` conflict, runs
`DO UPDATE SET base_token_id, quote_token_id, pair_type, dex_id, chain_id =
EXCLUDED.…`: exactly those five columns take the new values, every other
column keeps its stored value. -/

structure PoolRow where
  pair_contract : String
  base_token_id : Nat
  quote_token_id : Nat
  pair_type : String
  is_uzig_quote : Bool
  created_at : Nat
  created_height : Nat
  created_tx_hash : Option String
  signer : Option String
  dex_id : Option Nat
  chain_id : Option Nat
  deriving Repr, DecidableEq

/-- The `DO UPDATE SET` list of `upsertPool`'s insert. -/
def poolConflictUpdate (old new : PoolRow) : PoolRow :=
  { old with
    base_token_id := new.base_token_id
    quote_token_id := new.quote_token_id
    pair_type := new.pair_type
    dex_id := new.dex_id
    chain_id := new.chain_id }

/-- `INSERT INTO pools … ON CONFLICT (pair_contract) DO UPDATE SET …`:
`pair_contract` is unique, so the conflict branch rewrites the one matching
row, otherwise the row is appended. -/
def upsertPoolRow (tbl : List PoolRow) (new : PoolRow) : List PoolRow :=
  if tbl.any (fun r => r.pair_contract == new.pair_contract) then
    tbl.map (fun r =>
      if r.pair_contract == new.pair_contract then poolConflictUpdate r new else r)
  else tbl ++ [new]

/-- C10: when `upsertPool` hits an existing `pair_contract`, the stored row
ends up with the call's `base_token_id`, `quote_token_id`, `pair_type`,
`dex_id` and `chain_id`, while `is_uzig_quote`, `created_at`,
`created_height`, `created_tx_hash` and `signer` keep their previously
stored values, and no row is added. -/
theorem upsertPool_conflict_frame (tbl : List PoolRow) (old new : PoolRow)
    (hmem : old ∈ tbl) (hkey : old.pair_contract = new.pair_contract) :
    (∃ r ∈ upsertPoolRow tbl new,
      r.base_token_id = new.base_token_id ∧
      r.quote_token_id = new.quote_token_id ∧
      r.pair_type = new.pair_type ∧
      r.dex_id = new.dex_id ∧
      r.chain_id = new.chain_id ∧
      r.is_uzig_quote = old.is_uzig_quote ∧
      r.created_at = old.created_at ∧
      r.created_height = old.created_height ∧
      r.created_tx_hash = old.created_tx_hash ∧
      r.signer = old.signer) ∧
    (upsertPoolRow tbl new).length = tbl.length := by
  have hb : (old.pair_contract == new.pair_contract) = true := by
    exact beq_iff_eq.mpr hkey
  have hany : (tbl.any fun r => r.pair_contract == new.pair_contract) = true :=
    List.any_eq_true.mpr ⟨old, hmem, hb⟩
  unfold upsertPoolRow
  rw [if_pos hany]
  constructor
  · refine ⟨poolConflictUpdate old new, ?_, rfl, rfl, rfl, rfl, rfl, rfl, rfl, rfl, rfl, rfl⟩
    exact List.mem_map.mpr ⟨old, hmem, by rw [hb]; rfl⟩
  · exact List.length_map tbl _

/-- An already-stored pool row for the witness. -/
def c10old : PoolRow :=
  { pair_contract := "zig1pair", base_token_id := 1, quote_token_id := 2,
    pair_type := "xyk", is_uzig_quote := true, created_at := 1700000000000,
    created_height := 50, created_tx_hash := some "CC", signer := some "zig1a",
    dex_id := some 1, chain_id := some 1 }

/-- A later upsert for the same `pair_contract` supplying different values
for every column. -/
def c10new : PoolRow :=
  { pair_contract := "zig1pair", base_token_id := 9, quote_token_id := 8,
    pair_type := "concentrated", is_uzig_quote := false,
    created_at := 1700009999999, created_height := 99,
    created_tx_hash := some "DD", signer := some "zig1b",
    dex_id := some 2, chain_id := some 2 }

/-- Witness: replaying the upsert over `c10old` with `c10new`'s values keeps
the provenance columns of `c10old`. -/
theorem upsertPool_conflict_frame_witness :
    (∃ r ∈ upsertPoolRow [c10old] c10new,
      r.base_token_id = c10new.base_token_id ∧
      r.quote_token_id = c10new.quote_token_id ∧
      r.pair_type = c10new.pair_type ∧
      r.dex_id = c10new.dex_id ∧
      r.chain_id = c10new.chain_id ∧
      r.is_uzig_quote = c10old.is_uzig_quote ∧
      r.created_at = c10old.created_at ∧
      r.created_height = c10old.created_height ∧
      r.created_tx_hash = c10old.created_tx_hash ∧
      r.signer = c10old.signer) ∧
    (upsertPoolRow [c10old] c10new).length = [c10old].length :=
  upsertPool_conflict_frame [c10old] c10old c10new (List.mem_singleton.mpr rfl) rfl

/-! ## Block processor scheduling (`core/block-processor.js`)

`processHeight` scans the block's transactions, accumulating `poolTasks`
(one per accepted `create_pair`), `tasks` (one per accepted `swap` /
`provide_liquidity` / `withdraw_liquidity`) and `lowPrioTasks` (deduplicated
token-metadata fetches).  At the end of each transaction's scan, `if
(tasks.length >= MAX_PENDING_TASKS)` the pending Phase-2 `tasks` are flushed
through `runWithConcurrency` — while `poolTasks` keeps accumulating and only
runs after the scan.  After the scan: Phase-1 (`poolTasks`), the pool
prefetch (cache-only, not modelled in the trace), Phase-2 (the remaining
`tasks`), then the low-priority metadata tasks.

The model keeps, per transaction, the number of tasks of each kind that
survive the code's per-event guards, and produces the execution trace as
the concatenation of the scheduler runs (`runWithConcurrency` completes one
batch before the next starts; order inside a batch is irrelevant to every
property proved here). -/

/-- Per-transaction task counts after the scan's guards and dedup. -/
structure Tx where
  nPool : Nat
  nCore : Nat
  nMeta : Nat
  deriving Repr, DecidableEq

/-- A scheduled task, tagged like the code's timing labels
`pools#i` / `core#i` / `meta#i`. -/
inductive TaskTag where
  | pool (i : Nat)
  | core (i : Nat)
  | meta (i : Nat)
  deriving Repr, DecidableEq

def TaskTag.isPool : TaskTag → Bool
  | .pool _ => true
  | _ => false

def TaskTag.isCore : TaskTag → Bool
  | .core _ => true
  | _ => false

/-- `Number(process.env.BLOCK_PROC_MAX_TASKS || 5000)`. -/
def MAX_PENDING_TASKS : Nat := 5000

/-- `Number(process.env.BLOCK_PROC_CONCURRENCY || 12)` (unused by the trace
order; kept for the record). -/
def BLOCK_PROC_CONCURRENCY : Nat := 12

structure ScanState where
  poolPending : List TaskTag
  corePending : List TaskTag
  metaPending : List TaskTag
  trace : List TaskTag
  nPool : Nat
  nCore : Nat
  nMeta : Nat
  deriving Repr

/-- One iteration of the scan's `for` loop over transactions: accumulate the
transaction's tasks, then flush the pending Phase-2 tasks through the
scheduler when `tasks.length >= MAX_PENDING_TASKS`. -/
def scanTx (maxPending : Nat) (s : ScanState) (tx : Tx) : ScanState :=
  if maxPending ≤ (s.corePending
      ++ (List.range tx.nCore).map (fun i => TaskTag.core (s.nCore + i))).length then
    { poolPending := s.poolPending
        ++ (List.range tx.nPool).map (fun i => TaskTag.pool (s.nPool + i)),
      corePending := [],
      metaPending := s.metaPending
        ++ (List.range tx.nMeta).map (fun i => TaskTag.meta (s.nMeta + i)),
      trace := s.trace ++ (s.corePending
        ++ (List.range tx.nCore).map (fun i => TaskTag.core (s.nCore + i))),
      nPool := s.nPool + tx.nPool, nCore := s.nCore + tx.nCore, nMeta := s.nMeta + tx.nMeta }
  else
    { poolPending := s.poolPending
        ++ (List.range tx.nPool).map (fun i => TaskTag.pool (s.nPool + i)),
      corePending := s.corePending
        ++ (List.range tx.nCore).map (fun i => TaskTag.core (s.nCore + i)),
      metaPending := s.metaPending
        ++ (List.range tx.nMeta).map (fun i => TaskTag.meta (s.nMeta + i)),
      trace := s.trace,
      nPool := s.nPool + tx.nPool, nCore := s.nCore + tx.nCore, nMeta := s.nMeta + tx.nMeta }

def initScan : ScanState := ⟨[], [], [], [], 0, 0, 0⟩

/-- The task execution order of `processHeight`: mid-scan backpressure
flushes, then Phase-1 pool tasks, then the remaining Phase-2 tasks, then the
low-priority metadata tasks. -/
def processHeightTrace (maxPending : Nat) (txs : List Tx) : List TaskTag :=
  (txs.foldl (scanTx maxPending) initScan).trace
    ++ (txs.foldl (scanTx maxPending) initScan).poolPending
    ++ (txs.foldl (scanTx maxPending) initScan).corePending
    ++ (txs.foldl (scanTx maxPending) initScan).metaPending

/-- `true` iff no Phase-1 pool task appears after a Phase-2 task has already
run, i.e. every pool task completes before any trade/price task starts. -/
def noPoolAfterCore : Bool → List TaskTag → Bool
  | _, [] => true
  | seenCore, TaskTag.pool _ :: rest =>
      if seenCore then false else noPoolAfterCore seenCore rest
  | _, TaskTag.core _ :: rest => noPoolAfterCore true rest
  | seenCore, TaskTag.meta _ :: rest => noPoolAfterCore seenCore rest

def phase1BeforePhase2 (tr : List TaskTag) : Bool :=
  noPoolAfterCore false tr

lemma noPoolAfterCore_cores_skip (l r : List TaskTag)
    (h : ∀ t ∈ l, t.isCore = true) :
    noPoolAfterCore true (l ++ r) = noPoolAfterCore true r := by
  induction l with
  | nil => rfl
  | cons x xs ih =>
    have hx := h x (List.mem_cons_self x xs)
    cases x with
    | core i =>
      show noPoolAfterCore true (xs ++ r) = noPoolAfterCore true r
      exact ih (fun t ht => h t (List.mem_cons_of_mem _ ht))
    | pool i => simp [TaskTag.isCore] at hx
    | meta i => simp [TaskTag.isCore] at hx

lemma noPoolAfterCore_cores_first (x : TaskTag) (xs r : List TaskTag)
    (h : ∀ t ∈ x :: xs, t.isCore = true) :
    noPoolAfterCore false ((x :: xs) ++ r) = noPoolAfterCore true r := by
  have hx := h x (List.mem_cons_self x xs)
  cases x with
  | core i =>
    show noPoolAfterCore true (xs ++ r) = noPoolAfterCore true r
    exact noPoolAfterCore_cores_skip xs r
      (fun t ht => h t (List.mem_cons_of_mem _ ht))
  | pool i => simp [TaskTag.isCore] at hx
  | meta i => simp [TaskTag.isCore] at hx

lemma noPoolAfterCore_pool_after_core (i : Nat) (rest : List TaskTag) :
    noPoolAfterCore true (TaskTag.pool i :: rest) = false := by
  simp [noPoolAfterCore]

/-- The concrete backpressure block: one transaction holding one
`create_pair` and 5000 swaps, so that the flush threshold is reached at the
end of the transaction's scan. -/
def c3txs : List Tx := [⟨1, 5000, 0⟩]

lemma processHeightTrace_single_flush (maxPending nPool nCore : Nat)
    (h : maxPending ≤ nCore) :
    processHeightTrace maxPending [⟨nPool, nCore, 0⟩] =
      (List.range nCore).map (fun i => TaskTag.core i)
        ++ (List.range nPool).map (fun i => TaskTag.pool i) := by
  unfold processHeightTrace
  rw [List.foldl_cons, List.foldl_nil]
  unfold scanTx initScan
  rw [if_pos (by simpa using h)]
  simp

lemma cores_then_pools_inverted (nCore nPool : Nat)
    (hc : nCore ≠ 0) (hp : nPool ≠ 0) :
    phase1BeforePhase2 ((List.range nCore).map (fun i => TaskTag.core i)
      ++ (List.range nPool).map (fun i => TaskTag.pool i)) = false := by
  obtain ⟨c, rfl⟩ := Nat.exists_eq_succ_of_ne_zero hc
  obtain ⟨p, rfl⟩ := Nat.exists_eq_succ_of_ne_zero hp
  have hcrange : List.range (c + 1) = 0 :: (List.range c).map (· + 1) :=
    List.range_succ_eq_map c
  have hprange : List.range (p + 1) = 0 :: (List.range p).map (· + 1) :=
    List.range_succ_eq_map p
  rw [hcrange, hprange, List.map_cons, List.map_cons]
  unfold phase1BeforePhase2
  show noPoolAfterCore true (((List.range c).map (· + 1)).map
    (fun i => TaskTag.core i) ++ (TaskTag.pool 0 ::
      ((List.range p).map (· + 1)).map (fun i => TaskTag.pool i))) = false
  rw [noPoolAfterCore_cores_skip _ _ ?_]
  · exact noPoolAfterCore_pool_after_core 0 _
  · intro t ht
    rcases List.mem_map.mp ht with ⟨i, _, rfl⟩
    rfl

/-- C3 counterexample: with the default `MAX_PENDING_TASKS = 5000`, a block
whose single transaction carries one `create_pair` and 5000 swaps flushes
all 5000 Phase-2 tasks through the scheduler during the scan, before the
Phase-1 pool-upsert task has started: the phase ordering the claim states is
violated. -/
theorem backpressure_flush_breaks_phase_order :
    phase1BeforePhase2 (processHeightTrace MAX_PENDING_TASKS c3txs) = false := by
  show phase1BeforePhase2 (processHeightTrace MAX_PENDING_TASKS
    [⟨1, 5000, 0⟩]) = false
  rw [processHeightTrace_single_flush MAX_PENDING_TASKS 1 5000 (by decide)]
  exact cores_then_pools_inverted 5000 1 (by decide) (by decide)

lemma scanTx_corePending_length (maxPending : Nat) (s : ScanState) (tx : Tx)
    (h : s.corePending.length + tx.nCore < maxPending) :
    (scanTx maxPending s tx).trace = s.trace ∧
    (scanTx maxPending s tx).corePending.length
      = s.corePending.length + tx.nCore := by
  unfold scanTx
  have hlen : (s.corePending ++ (List.range tx.nCore).map
      (fun i => TaskTag.core (s.nCore + i))).length
      = s.corePending.length + tx.nCore := by
    simp
  rw [if_neg (by rw [hlen]; omega)]
  exact ⟨rfl, hlen⟩

lemma scan_fold_no_flush (maxPending : Nat) (txs : List Tx) (s : ScanState)
    (h : s.corePending.length + (txs.map Tx.nCore).sum < maxPending) :
    (txs.foldl (scanTx maxPending) s).trace = s.trace ∧
    (txs.foldl (scanTx maxPending) s).corePending.length
      = s.corePending.length + (txs.map Tx.nCore).sum := by
  induction txs generalizing s with
  | nil => exact ⟨rfl, by simp⟩
  | cons tx rest ih =>
    have hsum : (List.map Tx.nCore (tx :: rest)).sum
        = tx.nCore + (rest.map Tx.nCore).sum := by simp
    have h' := h
    rw [hsum] at h'
    have h1 : s.corePending.length + tx.nCore < maxPending := by omega
    obtain ⟨htr, hlen⟩ := scanTx_corePending_length maxPending s tx h1
    have h2 : (scanTx maxPending s tx).corePending.length
        + (rest.map Tx.nCore).sum < maxPending := by
      rw [hlen]
      omega
    obtain ⟨htr', hlen'⟩ := ih (scanTx maxPending s tx) h2
    refine ⟨by rw [List.foldl_cons, htr', htr], ?_⟩
    rw [List.foldl_cons, hlen', hlen, hsum]
    omega

def TaskTag.isMeta : TaskTag → Bool
  | .meta _ => true
  | _ => false

lemma scanTx_shapes (maxPending : Nat) (s : ScanState) (tx : Tx)
    (hp : ∀ t ∈ s.poolPending, t.isPool = true)
    (hc : ∀ t ∈ s.corePending, t.isCore = true)
    (hm : ∀ t ∈ s.metaPending, t.isMeta = true) :
    (∀ t ∈ (scanTx maxPending s tx).poolPending, t.isPool = true) ∧
    (∀ t ∈ (scanTx maxPending s tx).corePending, t.isCore = true) ∧
    (∀ t ∈ (scanTx maxPending s tx).metaPending, t.isMeta = true) := by
  unfold scanTx
  have hpool : ∀ t ∈ s.poolPending ++ (List.range tx.nPool).map
      (fun i => TaskTag.pool (s.nPool + i)), t.isPool = true := by
    intro t ht
    rcases List.mem_append.mp ht with h1 | h2
    · exact hp t h1
    · rcases List.mem_map.mp h2 with ⟨i, _, rfl⟩
      rfl
  have hcore : ∀ t ∈ s.corePending ++ (List.range tx.nCore).map
      (fun i => TaskTag.core (s.nCore + i)), t.isCore = true := by
    intro t ht
    rcases List.mem_append.mp ht with h1 | h2
    · exact hc t h1
    · rcases List.mem_map.mp h2 with ⟨i, _, rfl⟩
      rfl
  have hmeta : ∀ t ∈ s.metaPending ++ (List.range tx.nMeta).map
      (fun i => TaskTag.meta (s.nMeta + i)), t.isMeta = true := by
    intro t ht
    rcases List.mem_append.mp ht with h1 | h2
    · exact hm t h1
    · rcases List.mem_map.mp h2 with ⟨i, _, rfl⟩
      rfl
  split
  · exact ⟨hpool, fun t ht => absurd ht (List.not_mem_nil t), hmeta⟩
  · exact ⟨hpool, hcore, hmeta⟩

lemma scan_fold_shapes (maxPending : Nat) (txs : List Tx) (s : ScanState)
    (hp : ∀ t ∈ s.poolPending, t.isPool = true)
    (hc : ∀ t ∈ s.corePending, t.isCore = true)
    (hm : ∀ t ∈ s.metaPending, t.isMeta = true) :
    (∀ t ∈ (txs.foldl (scanTx maxPending) s).poolPending, t.isPool = true) ∧
    (∀ t ∈ (txs.foldl (scanTx maxPending) s).corePending, t.isCore = true) ∧
    (∀ t ∈ (txs.foldl (scanTx maxPending) s).metaPending, t.isMeta = true) := by
  induction txs generalizing s with
  | nil => exact ⟨hp, hc, hm⟩
  | cons tx rest ih =>
    obtain ⟨hp', hc', hm'⟩ := scanTx_shapes maxPending s tx hp hc hm
    exact ih (scanTx maxPending s tx) hp' hc' hm'

lemma noPoolAfterCore_no_pool (b : Bool) (l : List TaskTag)
    (h : ∀ t ∈ l, t.isPool = false) : noPoolAfterCore b l = true := by
  induction l generalizing b with
  | nil => rfl
  | cons x xs ih =>
    have hx := h x (List.mem_cons_self x xs)
    have hrest := fun t ht => h t (List.mem_cons_of_mem x ht)
    cases x with
    | pool i => simp [TaskTag.isPool] at hx
    | core i => exact ih true hrest
    | meta i => exact ih b hrest

lemma noPoolAfterCore_pools_first (l r : List TaskTag)
    (h : ∀ t ∈ l, t.isPool = true) :
    noPoolAfterCore false (l ++ r) = noPoolAfterCore false r := by
  induction l with
  | nil => rfl
  | cons x xs ih =>
    have hx := h x (List.mem_cons_self x xs)
    cases x with
    | pool i =>
      show noPoolAfterCore false (xs ++ r) = noPoolAfterCore false r
      exact ih (fun t ht => h t (List.mem_cons_of_mem _ ht))
    | core i => simp [TaskTag.isPool] at hx
    | meta i => simp [TaskTag.isPool] at hx

/-- C3 amended: Phase-1 pool-upsert tasks all complete before any Phase-2
trade/price task starts in every execution of `processHeight` whose scan
never reaches the backpressure threshold (in particular whenever the block's
total Phase-2 task count stays below `MAX_PENDING_TASKS`); when the
threshold is reached, the pending Phase-2 tasks are flushed through the
scheduler mid-scan and run before Phase-1 has started. -/
theorem phase_order_holds_without_flush (maxPending : Nat) (txs : List Tx)
    (h : (txs.map Tx.nCore).sum < maxPending) :
    phase1BeforePhase2 (processHeightTrace maxPending txs) = true := by
  obtain ⟨htr, -⟩ := scan_fold_no_flush maxPending txs initScan
    (by simpa [initScan] using h)
  obtain ⟨hp, hc, hm⟩ := scan_fold_shapes maxPending txs initScan
    (by intro t ht; cases ht) (by intro t ht; cases ht) (by intro t ht; cases ht)
  unfold processHeightTrace phase1BeforePhase2
  rw [htr]
  show noPoolAfterCore false ((([] : List TaskTag)
    ++ (txs.foldl (scanTx maxPending) initScan).poolPending
    ++ (txs.foldl (scanTx maxPending) initScan).corePending
    ++ (txs.foldl (scanTx maxPending) initScan).metaPending)) = true
  rw [List.nil_append, List.append_assoc]
  rw [noPoolAfterCore_pools_first _ _ hp]
  apply noPoolAfterCore_no_pool
  intro t ht
  rcases List.mem_append.mp ht with h1 | h2
  · have := hc t h1
    cases t with
    | pool i => simp [TaskTag.isCore] at this
    | core i => rfl
    | meta i => rfl
  · have := hm t h2
    cases t with
    | pool i => simp [TaskTag.isMeta] at this
    | core i => rfl
    | meta i => rfl

/-- Witness for the no-flush phase-order theorem: a small block (one
`create_pair`, five Phase-2 tasks over two transactions) stays below the
default threshold and keeps Phase-1 strictly before Phase-2. -/
theorem phase_order_holds_without_flush_witness :
    (([⟨1, 2, 1⟩, ⟨0, 3, 0⟩] : List Tx).map Tx.nCore).sum < MAX_PENDING_TASKS ∧
    phase1BeforePhase2 (processHeightTrace MAX_PENDING_TASKS
      [⟨1, 2, 1⟩, ⟨0, 3, 0⟩]) = true :=
  ⟨by decide, phase_order_holds_without_flush MAX_PENDING_TASKS
    [⟨1, 2, 1⟩, ⟨0, 3, 0⟩] (by decide)⟩

/-! ## Height watermark (`index_state`, C2)

`processHeight` itself (in `core/block-processor.js`) performs no
`index_state` write: its body runs the scan, the three drains and the
metric logging, and nothing in it queries `index_state`.  The driver that
calls `processHeight` is not part of the provided sources. -/

inductive DriverEffect where
  | task (t : TaskTag)
  | setLastHeight (h : Nat)
  deriving Repr, DecidableEq

/-- Modelled from the spec: the height driver — `processHeight`'s caller —
is not under `src/`.  Per the spec (§4.7 step 6 and §7), on full success of
`processHeight(h)` it updates `index_state.last_height = h` at the very end,
and on any error the height is abandoned with `index_state` untouched.
`failAt = none` is a full success; `failAt = some k` is a run that dies
after `k` tasks.  The task trace itself is the faithful embedding of
`processHeight` (which never touches `index_state`). -/
def driverEffects (maxPending : Nat) (txs : List Tx) (h : Nat) :
    Option Nat → List DriverEffect
  | none => ((processHeightTrace maxPending txs).map DriverEffect.task)
      ++ [DriverEffect.setLastHeight h]
  | some k => ((processHeightTrace maxPending txs).take k).map DriverEffect.task

/-- The `index_state.last_height` value after a list of effects. -/
def lastHeightAfter (st : Option Nat) (effs : List DriverEffect) : Option Nat :=
  effs.foldl (fun s e => match e with
    | DriverEffect.setLastHeight h => some h
    | DriverEffect.task _ => s) st

lemma lastHeightAfter_tasks (l : List TaskTag) (st : Option Nat) :
    lastHeightAfter st (l.map DriverEffect.task) = st := by
  induction l generalizing st with
  | nil => rfl
  | cons t rest ih => exact ih st

lemma lastHeightAfter_append (st : Option Nat) (l₁ l₂ : List DriverEffect) :
    lastHeightAfter st (l₁ ++ l₂) = lastHeightAfter (lastHeightAfter st l₁) l₂ :=
  List.foldl_append _ _ _ _

/-- C2: when `processHeight(h)` completes without error the watermark is set
to `h` as the final effect of the height's processing, and it is advanced
only in that case: a run that fails at any point leaves `index_state`
unchanged (no task of `processHeight` writes it). -/
theorem watermark_advances_only_on_success (maxPending : Nat) (txs : List Tx)
    (h : Nat) (st : Option Nat) :
    (lastHeightAfter st (driverEffects maxPending txs h none) = some h ∧
     (driverEffects maxPending txs h none).getLast?
        = some (DriverEffect.setLastHeight h)) ∧
    (∀ k, lastHeightAfter st (driverEffects maxPending txs h (some k)) = st) := by
  refine ⟨⟨?_, ?_⟩, ?_⟩
  · show lastHeightAfter st
      ((processHeightTrace maxPending txs).map DriverEffect.task
        ++ [DriverEffect.setLastHeight h]) = some h
    rw [lastHeightAfter_append, lastHeightAfter_tasks]
    rfl
  · show ((processHeightTrace maxPending txs).map DriverEffect.task
        ++ [DriverEffect.setLastHeight h]).getLast?
      = some (DriverEffect.setLastHeight h)
    rw [List.getLast?_concat]
  · intro k
    exact lastHeightAfter_tasks _ st

/-! ## Swap direction (C5)

The swap task stores
`direction: classifyDirection(offer, pool.quote_denom)` — the function
receives only the swap's offer denom and the pool's quote denom.  The pool
row comes from `poolWithTokens`. -/

/-- The pool/token row returned by `poolWithTokens` (`core/pools.js`). -/
structure PoolTokens where
  pool_id : Nat
  is_uzig_quote : Bool
  base_id : Nat
  base_denom : String
  base_exp : Int
  quote_id : Nat
  quote_denom : String
  quote_exp : Int
  deriving Repr, DecidableEq

/-- Modelled from the spec: `classifyDirection` is defined in
`core/parse.js`, which is not among the provided sources; only its call site
is.  That call site passes exactly two arguments —
`classifyDirection(offer, pool.quote_denom)` — so the spec's primary rule,
`buy` if offer denom equals the pool's quote denom, is modelled on those two
arguments, with `sell` otherwise; the base denom and the ask denom are not
available to the function. -/
def classifyDirection (offer : Option String) (quoteDenom : String) : String :=
  if offer = some quoteDenom then "buy" else "sell"

/-- The direction stored on a Phase-2 swap trade. -/
def swapTradeDirection (offer : Option String) (pool : PoolTokens) : String :=
  classifyDirection offer pool.quote_denom

/-- The direction rule exactly as the claim states it: `buy` if offer ==
quote, `sell` if offer == base, else the symmetric rule on the ask denom
(ask == base → `buy`, ask == quote → `sell`).  The residual case is left as
`"sell"`; no theorem below depends on it. -/
def specDirection (offer ask : Option String) (baseDenom quoteDenom : String) :
    String :=
  if offer = some quoteDenom then "buy"
  else if offer = some baseDenom then "sell"
  else if ask = some baseDenom then "buy"
  else if ask = some quoteDenom then "sell"
  else "sell"

/-- A native-quote pool over `factory/x`. -/
def c5pool : PoolTokens :=
  { pool_id := 3, is_uzig_quote := true, base_id := 11,
    base_denom := "factory/x", base_exp := 6, quote_id := 1,
    quote_denom := "uzig", quote_exp := 6 }

/-- C5 counterexample: a swap whose offer denom matches neither pool leg but
whose ask denom is the base: the claim's ask-denom fallback demands `buy`,
while the code's direction — a function of the offer denom and quote denom
alone — yields `sell`. -/
theorem direction_ignores_ask_fallback :
    specDirection (some "ibc/y") (some "factory/x")
        c5pool.base_denom c5pool.quote_denom = "buy" ∧
    swapTradeDirection (some "ibc/y") c5pool = "sell" ∧
    swapTradeDirection (some "ibc/y") c5pool ≠
      specDirection (some "ibc/y") (some "factory/x")
        c5pool.base_denom c5pool.quote_denom := by
  refine ⟨?_, ?_, ?_⟩ <;>
    simp [specDirection, swapTradeDirection, classifyDirection, c5pool]

/-- C5 amended: the stored direction depends only on the offer denom and
the pool's quote denom (`buy` iff they match, `sell` otherwise); it agrees
with the claim's rule whenever the offer denom matches one of the pool's
legs, and the claim's ask-denom fallback is never consulted. -/
theorem swap_direction_primary_cases (offer ask : Option String)
    (pool : PoolTokens)
    (h : offer = some pool.quote_denom ∨
         (offer = some pool.base_denom ∧ pool.base_denom ≠ pool.quote_denom)) :
    swapTradeDirection offer pool =
      specDirection offer ask pool.base_denom pool.quote_denom := by
  rcases h with h | ⟨h, hne⟩
  · simp [swapTradeDirection, classifyDirection, specDirection, h]
  · have hnq : offer ≠ some pool.quote_denom := by
      rw [h]
      intro hc
      exact hne (Option.some_injective _ hc)
    simp [swapTradeDirection, classifyDirection, specDirection, h, hnq]

/-- Witness: a swap offering the native quote into `c5pool` is a `buy` under
both the code and the claim's primary rule. -/
theorem swap_direction_primary_cases_witness :
    swapTradeDirection (some "uzig") c5pool =
      specDirection (some "uzig") (some "factory/x")
        c5pool.base_denom c5pool.quote_denom ∧
    swapTradeDirection (some "uzig") c5pool = "buy" :=
  ⟨swap_direction_primary_cases (some "uzig") (some "factory/x") c5pool
    (Or.inl rfl), by simp [swapTradeDirection, classifyDirection, c5pool]⟩

/-! ## Fast-track seed pricing (C6, `jobs/fasttrack-listener.js` step 6) -/

/-- The pool context loaded by `loadPoolContext` for a `pair_created`
payload. -/
structure FasttrackCtx where
  pool_id : Nat
  pair_contract : String
  is_uzig_quote : Bool
  created_at : Nat
  base_token_id : Nat
  base_denom : String
  quote_token_id : Nat
  quote_denom : String
  deriving Repr, DecidableEq

/-- A write emitted by the seed step. -/
inductive SeedCall where
  | upsertPrice (token_id pool_id : Nat) (price : ℚ) (is_pair_native : Bool)
  | upsertOHLCV1m (pool_id bucket_start : Nat) (price : ℚ) (vol_zig : ℚ)
      (trade_inc : Nat)
  deriving Repr, DecidableEq

/-- `minuteFloor`: zero the seconds and milliseconds of the timestamp
(equivalently, floor to the minute in absolute time). -/
def minuteFloorMs (t : Nat) : Nat := 60000 * (t / 60000)

/-- Step 6 of the fast-track `pair_created` handler: for `uzig`-quoted pools
only, once the base token's `exponent` is non-null, compute the price from
the freshly fetched reserves and emit one `upsertPrice(..., true)` followed
by one `upsertOHLCV1m` at the minute of pool creation with zero volume and
zero trade count.  `priceFromReserves_UZIGQuote` lives in `core/prices.js`
(not among the provided sources), so the computed price is passed in as an
optional rational; the JS guard
`price != null && Number.isFinite(price) && price > 0` becomes the
positivity test on that optional value. -/
def seedPriceAndOHLCV (ctx : FasttrackCtx) (baseExp : Option Int)
    (price : Option ℚ) : List SeedCall :=
  if ctx.quote_denom = "uzig" then
    match baseExp with
    | none => []
    | some _ =>
      match price with
      | none => []
      | some p =>
        if 0 < p then
          [SeedCall.upsertPrice ctx.base_token_id ctx.pool_id p true,
           SeedCall.upsertOHLCV1m ctx.pool_id (minuteFloorMs ctx.created_at)
             p 0 0]
        else []
  else []

/-- C6: for a native-quote (`uzig`) pool with populated base exponent and a
finite positive computed price, the reactor emits exactly one `upsertPrice`
with `is_pair_native = true` and exactly one `upsertOHLCV1m` whose bucket is
the minute floor of the pool's `created_at` (a multiple of one minute, at
most `created_at`, within a minute of it) with zero volume and zero trade
increment; a non-native-quote pool emits neither. -/
theorem fasttrack_seed_calls (ctx : FasttrackCtx) (e : Int) (p : ℚ) :
    (ctx.quote_denom = "uzig" → 0 < p →
      seedPriceAndOHLCV ctx (some e) (some p) =
        [SeedCall.upsertPrice ctx.base_token_id ctx.pool_id p true,
         SeedCall.upsertOHLCV1m ctx.pool_id (minuteFloorMs ctx.created_at)
           p 0 0] ∧
      60000 ∣ minuteFloorMs ctx.created_at ∧
      minuteFloorMs ctx.created_at ≤ ctx.created_at ∧
      ctx.created_at < minuteFloorMs ctx.created_at + 60000) ∧
    (ctx.quote_denom ≠ "uzig" →
      ∀ (be : Option Int) (pr : Option ℚ), seedPriceAndOHLCV ctx be pr = []) := by
  constructor
  · intro hq hp
    refine ⟨?_, ?_, ?_, ?_⟩
    · unfold seedPriceAndOHLCV
      rw [if_pos hq]
      show (if 0 < p then _ else _) = _
      rw [if_pos hp]
    · exact Dvd.intro _ rfl
    · unfold minuteFloorMs
      omega
    · unfold minuteFloorMs
      omega
  · intro hq be pr
    unfold seedPriceAndOHLCV
    rw [if_neg hq]

/-- A freshly created native-quote pool for the witness. -/
def c6ctx : FasttrackCtx :=
  { pool_id := 5, pair_contract := "zig1newpair", is_uzig_quote := true,
    created_at := 1700000123456, base_token_id := 21, base_denom := "factory/y",
    quote_token_id := 1, quote_denom := "uzig" }

/-- Witness: the seed step on `c6ctx` with exponent 6 and price 4 emits the
price upsert (native) and the zero-volume seed candle at the creation
minute. -/
theorem fasttrack_seed_calls_witness :
    seedPriceAndOHLCV c6ctx (some 6) (some 4) =
      [SeedCall.upsertPrice 21 5 4 true,
       SeedCall.upsertOHLCV1m 5 1700000100000 4 0 0] := by
  have h := ((fasttrack_seed_calls c6ctx 6 4).1 rfl (by norm_num)).1
  rw [h]
  rfl

/-! ## Live broadcaster trade pump (C7, `api/ws.js` `pumpTrades`)

Every cycle the pump selects `created_at > $watermark` (or
`created_at >= now() - 10 minutes` while the watermark is unset), restricted
to `action IN ('swap','provide','withdraw')`, `ORDER BY created_at ASC
LIMIT 200`.  It then loops over the rows: for each row it broadcasts to
`trades.stream`, awaits a per-row `DB.query` for the base token, broadcasts
to the per-token and per-pair topics, and only then advances `lastSeenIso`
to that row's `created_at`.  The whole cycle sits in a `try` whose `catch`
swallows the error: if the `k`-th row's DB lookup rejects, rows `0..k-1`
are fully processed, row `k` has already been broadcast to `trades.stream`
but the watermark still points below it, and the loop stops there.  Rows
carry their `trade_id` primary key; the table may grow arbitrarily between
cycles. -/

structure PumpRow where
  trade_id : Nat
  created_at : Nat
  action : String
  deriving Repr, DecidableEq

/-- `t.action IN ('swap','provide','withdraw')`. -/
def actionOk (r : PumpRow) : Bool :=
  r.action == "swap" || r.action == "provide" || r.action == "withdraw"

/-- The `WHERE` clause of the pump's select. -/
def pumpFilter (wm : Option Nat) (now : Nat) (r : PumpRow) : Bool :=
  (match wm with
   | some w => decide (w < r.created_at)
   | none => decide (now - 600000 ≤ r.created_at)) && actionOk r

/-- `a.created_at ≤ b.created_at` as the sort order of
`ORDER BY created_at ASC`. -/
def rowLe (a b : PumpRow) : Bool := decide (a.created_at ≤ b.created_at)

/-- The pump's select: filter, order ascending by `created_at`, `LIMIT 200`. -/
def pumpSelect (table : List PumpRow) (wm : Option Nat) (now : Nat) :
    List PumpRow :=
  ((table.filter (pumpFilter wm now)).mergeSort rowLe).take 200

structure PumpState where
  table : List PumpRow
  wm : Option Nat
  log : List (List PumpRow)

/-- The rows whose loop iteration ran to completion, i.e. past which the
watermark advanced: all selected rows on a clean cycle, only the first `k`
when the `k`-th iteration's DB lookup throws. -/
def rowsCompleted (sel : List PumpRow) : Option Nat → List PumpRow
  | none => sel
  | some k => sel.take k

/-- The rows broadcast to `trades.stream`: the global broadcast precedes the
per-row DB lookup, so the row whose iteration throws has already gone out. -/
def rowsBroadcast (sel : List PumpRow) : Option Nat → List PumpRow
  | none => sel
  | some k => sel.take (k + 1)

lemma rowsCompleted_none (sel : List PumpRow) : rowsCompleted sel none = sel :=
  rfl

lemma rowsBroadcast_none (sel : List PumpRow) : rowsBroadcast sel none = sel :=
  rfl

/-- One pump cycle.  `failAt = none`: every row is broadcast and the
watermark ends at the last row's `created_at` (unchanged on an empty
batch).  `failAt = some k` with `k` below the batch size: the `k`-th row's
awaited DB lookup rejects after that row's global broadcast; the swallowed
`catch` ends the cycle with the watermark at row `k-1` (unchanged when
`k = 0`).  A failure before the loop (rate lookup or the select itself)
broadcasts nothing and changes nothing, like an empty batch. -/
def pumpOnce (st : PumpState) (now : Nat) (failAt : Option Nat) : PumpState :=
  { table := st.table,
    wm := match (rowsCompleted (pumpSelect st.table st.wm now) failAt).getLast? with
          | some r => some r.created_at
          | none => st.wm,
    log := st.log ++ [rowsBroadcast (pumpSelect st.table st.wm now) failAt] }

/-- Between pump cycles the indexer may append arbitrary new trade rows;
each pump cycle carries the index of the row (if any) whose DB lookup
fails. -/
inductive PumpEvent where
  | insert (rows : List PumpRow)
  | pump (now : Nat) (failAt : Option Nat)

def pumpStep (st : PumpState) (e : PumpEvent) : PumpState :=
  match e with
  | PumpEvent.insert rows => { st with table := st.table ++ rows }
  | PumpEvent.pump now failAt => pumpOnce st now failAt

/-- A broadcaster run: cold start (no watermark, nothing broadcast yet) over
an initial table, then any interleaving of inserts and pump cycles. -/
def pumpRun (tbl0 : List PumpRow) (es : List PumpEvent) : PumpState :=
  es.foldl pumpStep ⟨tbl0, none, []⟩

/-- `true` iff the pump event is an insert or an error-free pump cycle. -/
def eventOk : PumpEvent → Bool
  | PumpEvent.insert _ => true
  | PumpEvent.pump _ failAt => failAt.isNone

lemma pumpSelect_mem_filter (table : List PumpRow) (wm : Option Nat)
    (now : Nat) (r : PumpRow) (h : r ∈ pumpSelect table wm now) :
    pumpFilter wm now r = true := by
  have h1 : r ∈ (table.filter (pumpFilter wm now)).mergeSort rowLe :=
    List.take_subset 200 _ h
  have h2 : r ∈ table.filter (pumpFilter wm now) :=
    (List.mergeSort_perm _ rowLe).mem_iff.mp h1
  exact (List.mem_filter.mp h2).2

lemma pumpSelect_gt_wm (table : List PumpRow) (w : Nat) (now : Nat)
    (r : PumpRow) (h : r ∈ pumpSelect table (some w) now) :
    w < r.created_at := by
  have hf := pumpSelect_mem_filter table (some w) now r h
  unfold pumpFilter at hf
  have := (Bool.and_eq_true _ _).mp hf
  exact of_decide_eq_true this.1

lemma pairwise_le_getLast (l : List PumpRow)
    (hs : l.Pairwise (fun a b => a.created_at ≤ b.created_at)) :
    ∀ r ∈ l, ∀ x, l.getLast? = some x → r.created_at ≤ x.created_at := by
  induction l with
  | nil => intro r hr; cases hr
  | cons a t ih =>
    rcases List.pairwise_cons.mp hs with ⟨ha, ht⟩
    intro r hr x hx
    cases t with
    | nil =>
      rcases List.mem_singleton.mp hr with rfl
      cases Option.some_injective _ hx
      exact le_refl _
    | cons b t' =>
      rw [List.getLast?_cons_cons] at hx
      rcases List.mem_cons.mp hr with rfl | hr'
      · exact ha x (List.mem_of_mem_getLast? hx)
      · exact ih ht r hr' x hx

lemma pumpSelect_sorted (table : List PumpRow) (wm : Option Nat) (now : Nat) :
    (pumpSelect table wm now).Pairwise
      (fun a b => a.created_at ≤ b.created_at) := by
  have hms : ((table.filter (pumpFilter wm now)).mergeSort rowLe).Pairwise
      (fun a b => rowLe a b = true) :=
    List.sorted_mergeSort
      (fun a b c hab hbc => by
        unfold rowLe at *
        exact decide_eq_true (le_trans (of_decide_eq_true hab)
          (of_decide_eq_true hbc)))
      (fun a b => by
        unfold rowLe
        rcases le_total a.created_at b.created_at with h | h
        · rw [decide_eq_true h]
          rfl
        · rw [decide_eq_true h]
          simp)
      (table.filter (pumpFilter wm now))
  have hp : (pumpSelect table wm now).Pairwise (fun a b => rowLe a b = true) :=
    List.Pairwise.sublist (List.take_sublist 200 _) hms
  exact hp.imp (fun h => of_decide_eq_true h)

lemma pumpSelect_le_getLast (table : List PumpRow) (wm : Option Nat)
    (now : Nat) (r : PumpRow) (h : r ∈ pumpSelect table wm now) (x : PumpRow)
    (hx : (pumpSelect table wm now).getLast? = some x) :
    r.created_at ≤ x.created_at :=
  pairwise_le_getLast _ (pumpSelect_sorted table wm now) r h x hx

/-- Every already-broadcast row sits at or below the current watermark. -/
def LogBounded (st : PumpState) : Prop :=
  ∀ b ∈ st.log, ∀ r ∈ b, ∃ w, st.wm = some w ∧ r.created_at ≤ w

lemma pumpOnce_logBounded (st : PumpState) (now : Nat)
    (h : LogBounded st) : LogBounded (pumpOnce st now none) := by
  intro b hb r hr
  unfold pumpOnce at hb ⊢
  rw [rowsBroadcast_none] at hb
  rw [rowsCompleted_none]
  rcases List.mem_append.mp hb with hold | hnew
  · rcases h b hold r hr with ⟨w, hw, hle⟩
    rcases hsel : (pumpSelect st.table st.wm now).getLast? with _ | x
    · exact ⟨w, hw, hle⟩
    · refine ⟨x.created_at, rfl, ?_⟩
      have hx : x ∈ pumpSelect st.table st.wm now :=
        List.mem_of_mem_getLast? hsel
      rw [hw] at hx
      have := pumpSelect_gt_wm st.table w now x hx
      omega
  · rcases List.mem_singleton.mp hnew with rfl
    have hne : (pumpSelect st.table st.wm now) ≠ [] :=
      List.ne_nil_of_mem hr
    rcases hsel : (pumpSelect st.table st.wm now).getLast? with _ | x
    · exact absurd (List.getLast?_eq_none_iff.mp hsel) hne
    · exact ⟨x.created_at, rfl,
        pumpSelect_le_getLast st.table st.wm now r hr x hsel⟩

lemma pumpOnce_disjoint (st : PumpState) (now : Nat) (h : LogBounded st)
    (b : List PumpRow) (hb : b ∈ st.log) (r : PumpRow) (hr : r ∈ b) :
    r ∉ pumpSelect st.table st.wm now := by
  intro hsel
  rcases h b hb r hr with ⟨w, hw, hle⟩
  have := pumpSelect_gt_wm st.table w now r (by rwa [← hw])
  omega

/-- C7 amended: over any broadcaster run in which every pump cycle
completes without error — any initial table, any interleaving of row
inserts and error-free pump cycles from cold start — no trade row is
broadcast by two different pump cycles, and every cycle broadcasts at most
200 rows. -/
theorem pump_never_rebroadcasts_without_errors (tbl0 : List PumpRow)
    (es : List PumpEvent) (hok : ∀ e ∈ es, eventOk e = true) :
    (pumpRun tbl0 es).log.Pairwise (fun b₁ b₂ => ∀ r ∈ b₁, r ∉ b₂) ∧
    ∀ b ∈ (pumpRun tbl0 es).log, b.length ≤ 200 := by
  suffices h : ∀ (es' : List PumpEvent), (∀ e ∈ es', eventOk e = true) →
      ∀ (st : PumpState), LogBounded st →
      st.log.Pairwise (fun b₁ b₂ => ∀ r ∈ b₁, r ∉ b₂) →
      (∀ b ∈ st.log, b.length ≤ 200) →
      (LogBounded (es'.foldl pumpStep st) ∧
        (es'.foldl pumpStep st).log.Pairwise (fun b₁ b₂ => ∀ r ∈ b₁, r ∉ b₂) ∧
        ∀ b ∈ (es'.foldl pumpStep st).log, b.length ≤ 200) by
    have := h es hok ⟨tbl0, none, []⟩
      (fun b hb => absurd hb (List.not_mem_nil b))
      List.Pairwise.nil
      (fun b hb => absurd hb (List.not_mem_nil b))
    exact ⟨this.2.1, this.2.2⟩
  clear hok tbl0 es
  intro es'
  induction es' with
  | nil => exact fun _ st h1 h2 h3 => ⟨h1, h2, h3⟩
  | cons e rest ih =>
    intro hok st h1 h2 h3
    have hrest : ∀ e ∈ rest, eventOk e = true :=
      fun e he => hok e (List.mem_cons_of_mem _ he)
    rcases e with rows | ⟨now, failAt⟩
    · exact ih hrest { st with table := st.table ++ rows } h1 h2 h3
    · have hnone : failAt = none := by
        have hvalue := hok _ (List.mem_cons_self _ _)
        unfold eventOk at hvalue
        exact Option.isNone_iff_eq_none.mp hvalue
      subst hnone
      apply ih hrest (pumpOnce st now none)
      · exact pumpOnce_logBounded st now h1
      · show (st.log ++ [rowsBroadcast (pumpSelect st.table st.wm now) none]).Pairwise _
        rw [rowsBroadcast_none, List.pairwise_append]
        refine ⟨h2, List.pairwise_singleton _ _, ?_⟩
        intro b hb sel hsel
        rcases List.mem_singleton.mp hsel with rfl
        exact fun r hr => pumpOnce_disjoint st now h1 b hb r hr
      · intro b hb
        unfold pumpOnce at hb
        rw [rowsBroadcast_none] at hb
        rcases List.mem_append.mp hb with hold | hnew
        · exact h3 b hold
        · rcases List.mem_singleton.mp hnew with rfl
          unfold pumpSelect
          rw [List.length_take]
          exact min_le_left _ _

/-- Two swap rows inside the pump's cold-start ten-minute window. -/
def c7r1 : PumpRow := { trade_id := 1, created_at := 1000, action := "swap" }

def c7r2 : PumpRow := { trade_id := 2, created_at := 2000, action := "swap" }

lemma c7sel : pumpSelect [c7r1, c7r2] none 1000 = [c7r1, c7r2] := by
  unfold pumpSelect
  have hf : List.filter (pumpFilter none 1000) [c7r1, c7r2] = [c7r1, c7r2] := by
    decide
  rw [hf, List.mergeSort_of_sorted
    (by decide : List.Pairwise (fun a b => rowLe a b = true) [c7r1, c7r2])]
  rfl

/-- C7 counterexample: with rows `c7r1`, `c7r2` in the cold-start window, a
first cycle whose first iteration's DB lookup rejects broadcasts `c7r1` and
then dies with the watermark still unset (the `catch` swallows the error);
the next, clean cycle re-selects and rebroadcasts `c7r1` — the same trade
row is broadcast by two different pump cycles. -/
theorem pump_rebroadcast_after_midrow_failure :
    (pumpRun [c7r1, c7r2]
        [PumpEvent.pump 1000 (some 0), PumpEvent.pump 1000 none]).log
      = [[c7r1], [c7r1, c7r2]] ∧
    ¬ (pumpRun [c7r1, c7r2]
        [PumpEvent.pump 1000 (some 0), PumpEvent.pump 1000 none]).log.Pairwise
        (fun b₁ b₂ => ∀ r ∈ b₁, r ∉ b₂) := by
  have h1 : pumpStep ⟨[c7r1, c7r2], none, []⟩ (PumpEvent.pump 1000 (some 0))
      = ⟨[c7r1, c7r2], none, [[c7r1]]⟩ := by
    show pumpOnce ⟨[c7r1, c7r2], none, []⟩ 1000 (some 0) = _
    unfold pumpOnce
    dsimp only
    rw [c7sel]
    rfl
  have h2 : pumpStep ⟨[c7r1, c7r2], none, [[c7r1]]⟩ (PumpEvent.pump 1000 none)
      = ⟨[c7r1, c7r2], some 2000, [[c7r1], [c7r1, c7r2]]⟩ := by
    show pumpOnce ⟨[c7r1, c7r2], none, [[c7r1]]⟩ 1000 none = _
    unfold pumpOnce
    dsimp only
    rw [c7sel]
    rfl
  have hrun : pumpRun [c7r1, c7r2]
      [PumpEvent.pump 1000 (some 0), PumpEvent.pump 1000 none]
      = ⟨[c7r1, c7r2], some 2000, [[c7r1], [c7r1, c7r2]]⟩ := by
    show pumpStep (pumpStep ⟨[c7r1, c7r2], none, []⟩
      (PumpEvent.pump 1000 (some 0))) (PumpEvent.pump 1000 none) = _
    rw [h1, h2]
  refine ⟨by rw [hrun], ?_⟩
  rw [hrun]
  intro hpw
  have hd := (List.pairwise_cons.mp hpw).1 [c7r1, c7r2]
    (List.mem_singleton.mpr rfl)
  exact hd c7r1 (List.mem_singleton.mpr rfl) (List.mem_cons_self _ _)

/-- Witness for the error-free no-rebroadcast theorem: an insert followed by
two clean pump cycles. -/
theorem pump_never_rebroadcasts_without_errors_witness :
    (∀ e ∈ ([PumpEvent.insert [c7r2], PumpEvent.pump 1000 none,
        PumpEvent.pump 3000 none] : List PumpEvent), eventOk e = true) ∧
    (pumpRun [c7r1] [PumpEvent.insert [c7r2], PumpEvent.pump 1000 none,
        PumpEvent.pump 3000 none]).log.Pairwise
      (fun b₁ b₂ => ∀ r ∈ b₁, r ∉ b₂) :=
  ⟨by decide,
   (pump_never_rebroadcasts_without_errors [c7r1]
     [PumpEvent.insert [c7r2], PumpEvent.pump 1000 none,
      PumpEvent.pump 3000 none] (by decide)).1⟩

/-! ## Keepalive heartbeat (C8, `api/ws.js`)

The server's heartbeat is a `setInterval` with `HEARTBEAT_MS = 25000` whose
body pings every client whose `readyState` is OPEN.  It maintains no
per-connection liveness flag, never listens for `pong`, and never
terminates a connection.  The `responded` field below records whether the
client answered the previous ping — information the claim speaks about but
the server never inspects. -/

structure WsConn where
  id : Nat
  isOpen : Bool
  responded : Bool
  deriving Repr, DecidableEq

def HEARTBEAT_MS : Nat := 25000

/-- One heartbeat tick: the surviving connection set (all of them — nothing
is closed) and the ids pinged (exactly the open ones, in order). -/
def heartbeatTick (conns : List WsConn) : List WsConn × List Nat :=
  (conns, (conns.filter (fun c => c.isOpen)).map (fun c => c.id))

/-- An open connection that never answered the previous ping. -/
def c8conn : WsConn := { id := 0, isOpen := true, responded := false }

/-- C8 counterexample: a connection that did not respond to the previous
ping survives the next heartbeat cycle untouched (and is pinged again) —
the server never drops unresponsive connections. -/
theorem heartbeat_keeps_unresponsive_connection :
    c8conn.responded = false ∧
    c8conn.isOpen = true ∧
    (heartbeatTick [c8conn]).1 = [c8conn] ∧
    c8conn ∈ (heartbeatTick [c8conn]).1 := by
  refine ⟨rfl, rfl, rfl, ?_⟩
  exact List.mem_singleton.mpr rfl

/-- C8 amended: every 25 s cycle pings exactly the open connections and
closes none: the connection set after a tick is the same, whether or not a
connection answered the previous ping. -/
theorem heartbeat_pings_open_drops_none (conns : List WsConn) :
    HEARTBEAT_MS = 25000 ∧
    (heartbeatTick conns).1 = conns ∧
    (∀ c ∈ conns, c.isOpen = true → c.id ∈ (heartbeatTick conns).2) ∧
    (∀ i ∈ (heartbeatTick conns).2, ∃ c ∈ conns, c.id = i ∧ c.isOpen = true) := by
  refine ⟨rfl, rfl, ?_, ?_⟩
  · intro c hc hopen
    exact List.mem_map.mpr ⟨c, List.mem_filter.mpr ⟨hc, hopen⟩, rfl⟩
  · intro i hi
    rcases List.mem_map.mp hi with ⟨c, hc, rfl⟩
    rcases List.mem_filter.mp hc with ⟨hmem, hopen⟩
    exact ⟨c, hmem, rfl, hopen⟩

/-- Witness: on a two-connection set (one open and unresponsive, one
closed), the tick pings exactly the open one and keeps both. -/
theorem heartbeat_pings_open_drops_none_witness :
    (heartbeatTick [c8conn, ⟨1, false, true⟩]).1 = [c8conn, ⟨1, false, true⟩] ∧
    c8conn.id ∈ (heartbeatTick [c8conn, ⟨1, false, true⟩]).2 ∧
    (heartbeatTick [c8conn, ⟨1, false, true⟩]).2 = [0] :=
  ⟨(heartbeat_pings_open_drops_none [c8conn, ⟨1, false, true⟩]).2.1,
   (heartbeat_pings_open_drops_none [c8conn, ⟨1, false, true⟩]).2.2.1 c8conn
     (List.mem_cons_self _ _) rfl,
   by rfl⟩

/-! ## WebSocket control protocol (C9, `api/ws.js` message handler)

The handler wraps only `JSON.parse` in `try`: a non-JSON frame is answered
with `{ok:false, error:'invalid_json'}`.  It then computes
`op = String(msg.op || '').toLowerCase()` and
`topic = String(msg.topic || '')`.  JavaScript values are modelled by a
small JSON type; `JSON.parse` of the literal `"null"` yields `null`, and
`null.op` throws a `TypeError` outside the `try`, so that frame gets no
reply at all. -/

inductive Json where
  | null
  | bool (b : Bool)
  | num (q : ℚ)
  | str (s : String)
  | arr (xs : List Json)
  | obj (fields : List (String × Json))

/-- JavaScript truthiness of a parsed JSON value (`NaN` cannot come out of
`JSON.parse`). -/
def jsFalsy : Json → Bool
  | Json.null => true
  | Json.bool b => !b
  | Json.num q => q == 0
  | Json.str s => s == ""
  | Json.arr _ => false
  | Json.obj _ => false

/-- `String(q)` for a parsed number.  Its exact spelling never matters
below: every JavaScript rendering of a number consists of digits, sign,
dot and exponent characters, so it is never `"subscribe"` or
`"unsubscribe"`; theorems only ever compare it against those literals. -/
def jsNumToString (q : ℚ) : String := toString q

mutual

/-- `String(v)` for a parsed JSON value (`Array.prototype.toString` is
`join(',')` with `null` elements rendered empty; objects render as
`"[object Object]"`). -/
def jsToString : Json → String
  | Json.null => "null"
  | Json.bool true => "true"
  | Json.bool false => "false"
  | Json.num q => jsNumToString q
  | Json.str s => s
  | Json.arr xs => jsArrToString xs
  | Json.obj _ => "[object Object]"

def jsArrElemToString : Json → String
  | Json.null => ""
  | j => jsToString j

def jsArrToString : List Json → String
  | [] => ""
  | [x] => jsArrElemToString x
  | x :: xs => jsArrElemToString x ++ "," ++ jsArrToString xs

end

/-- Property access `v.k`: a real property only on objects (keys are unique
after `JSON.parse`'s last-wins rule); on booleans, numbers, strings and
arrays the accessed property is `undefined` (`none`); access on `null`
throws and is handled separately. -/
def jsGet : Json → String → Option Json
  | Json.obj fields, k => fields.lookup k
  | _, _ => none

/-- `String(v || '')` where `v` is a possibly-undefined property value. -/
def jsStringOrEmpty : Option Json → String
  | none => ""
  | some v => if jsFalsy v then "" else jsToString v

/-- `toLowerCase()`, modelled on its ASCII case (where JavaScript's
`toLowerCase` maps `A`–`Z` down by 32 and keeps everything else); every
string it is compared against below is ASCII. -/
def asciiToLower (s : String) : String :=
  String.mk (s.data.map (fun c =>
    if 'A' ≤ c ∧ c ≤ 'Z' then Char.ofNat (c.toNat + 32) else c))

/-- A reply frame of the control protocol. -/
inductive WsReply where
  | invalidJson
  | subscribed (topic : String)
  | unsubscribed (topic : String)
  | unknownOp
  deriving Repr, DecidableEq

/-- The `message` handler: `none` input is a frame that failed `JSON.parse`
(answered `invalid_json`); a parsed `null` makes `msg.op` throw a
`TypeError` outside the `try`, so no reply is sent (`none` output); the
subscription-set side effects of subscribe/unsubscribe are not modelled
here. -/
def handleMessage : Option Json → Option WsReply
  | none => some WsReply.invalidJson
  | some Json.null => none
  | some msg =>
    if asciiToLower (jsStringOrEmpty (jsGet msg "op")) = "subscribe" then
      some (WsReply.subscribed (jsStringOrEmpty (jsGet msg "topic")))
    else if asciiToLower (jsStringOrEmpty (jsGet msg "op")) = "unsubscribe" then
      some (WsReply.unsubscribed (jsStringOrEmpty (jsGet msg "topic")))
    else
      some WsReply.unknownOp

/-- C9 counterexample: the frame `"null"` is valid JSON whose op is neither
`subscribe` nor `unsubscribe`, yet it receives no reply at all — the
handler throws on `msg.op` — instead of the claimed
`{ok:false, error:"unknown_op"}`. -/
theorem null_frame_gets_no_reply :
    handleMessage (some Json.null) = none ∧
    handleMessage (some Json.null) ≠ some WsReply.unknownOp := by
  exact ⟨rfl, fun h => Option.noConfusion h⟩

lemma handleMessage_some_of_ne_null (j : Json) (hnull : j ≠ Json.null) :
    handleMessage (some j) =
      (if asciiToLower (jsStringOrEmpty (jsGet j "op")) = "subscribe" then
        some (WsReply.subscribed (jsStringOrEmpty (jsGet j "topic")))
      else if asciiToLower (jsStringOrEmpty (jsGet j "op")) = "unsubscribe" then
        some (WsReply.unsubscribed (jsStringOrEmpty (jsGet j "topic")))
      else
        some WsReply.unknownOp) := by
  cases j with
  | null => exact absurd rfl hnull
  | bool b => rfl
  | num q => rfl
  | str s => rfl
  | arr xs => rfl
  | obj fields => rfl

/-- C9 amended: a non-JSON frame is answered `invalid_json`; every valid
JSON frame other than the literal `null` is answered
`{ok:true, subscribed/unsubscribed: topic}` when its computed op string is
`subscribe`/`unsubscribe` and `{ok:false, error:"unknown_op"}` otherwise;
the frame `null` alone gets no reply (the handler throws on `msg.op`). -/
theorem message_handler_replies (j : Json) (hnull : j ≠ Json.null) :
    handleMessage none = some WsReply.invalidJson ∧
    (asciiToLower (jsStringOrEmpty (jsGet j "op")) = "subscribe" →
      handleMessage (some j)
        = some (WsReply.subscribed (jsStringOrEmpty (jsGet j "topic")))) ∧
    (asciiToLower (jsStringOrEmpty (jsGet j "op")) = "unsubscribe" →
      handleMessage (some j)
        = some (WsReply.unsubscribed (jsStringOrEmpty (jsGet j "topic")))) ∧
    (asciiToLower (jsStringOrEmpty (jsGet j "op")) ≠ "subscribe" →
      asciiToLower (jsStringOrEmpty (jsGet j "op")) ≠ "unsubscribe" →
      handleMessage (some j) = some WsReply.unknownOp) := by
  refine ⟨rfl, ?_, ?_, ?_⟩
  · intro hop
    rw [handleMessage_some_of_ne_null j hnull, if_pos hop]
  · intro hop
    rw [handleMessage_some_of_ne_null j hnull, if_neg ?_, if_pos hop]
    rw [hop]
    decide
  · intro h1 h2
    rw [handleMessage_some_of_ne_null j hnull, if_neg h1, if_neg h2]

/-- The frame `{op:"subscribe", topic:"trades.stream"}`. -/
def c9subscribeFrame : Json :=
  Json.obj [("op", Json.str "subscribe"), ("topic", Json.str "trades.stream")]

/-- Witness: the subscribe frame is acknowledged with its topic. -/
theorem message_handler_replies_witness :
    handleMessage (some c9subscribeFrame)
      = some (WsReply.subscribed "trades.stream") := by
  have hop : asciiToLower (jsStringOrEmpty (jsGet c9subscribeFrame "op"))
      = "subscribe" := by
    have h1 : jsGet c9subscribeFrame "op" = some (Json.str "subscribe") := rfl
    rw [h1]
    have h2 : jsStringOrEmpty (some (Json.str "subscribe")) = "subscribe" := by
      simp [jsStringOrEmpty, jsFalsy, jsToString]
    rw [h2]
    decide
  have htopic : jsStringOrEmpty (jsGet c9subscribeFrame "topic")
      = "trades.stream" := by
    have h1 : jsGet c9subscribeFrame "topic"
        = some (Json.str "trades.stream") := rfl
    rw [h1]
    simp [jsStringOrEmpty, jsFalsy, jsToString]
  have h := (message_handler_replies c9subscribeFrame
    (fun h => Json.noConfusion h)).2.1 hop
  rw [h, htopic]

end Degenter
